import Mathlib

/-!
Verification of the `add constraint` operation of delta-rs
(`crates/deltalake-core/src/operations/constraints.rs`).

The Rust source is shallowly embedded below.  Rows are abstracted by a type
parameter `α`; the external DataFusion predicate evaluator is abstracted by a
function `evalPred : String → α → Bool` giving the meaning of a predicate
expression text on one row.  External collaborators that are not part of this
repository file (scan engine, row checker, log-store commit, snapshot merge)
are modelled from the specification and carry a doc comment saying so.
Effects that the pure embedding cannot perform (building a DataFusion session,
building the scan, committing to the log) are recorded in an event trace so
that ordering and "no mutation happened" claims are statable.
-/

namespace DeltaConstraints

/-- Error outcomes of the operation, one constructor per distinct error site of
`ConstraintBuilder::into_future` (the Rust code mostly wraps these in
`DeltaTableError::Generic` with a message; the constructor identifies the site).
-/
inductive Err where
  /-- "No name provided" (missing constraint name). -/
  | noName : Err
  /-- "No expression provided" (missing predicate expression). -/
  | noExpr : Err
  /-- `DeltaTableError::NoMetadata` (snapshot carries no metadata). -/
  | noMetadata : Err
  /-- "Constraint with name: {} already exists, expr: {}" (duplicate name). -/
  | alreadyExists (name expr : String) : Err
  /-- a partition stream item failed to be read (`maybe_batch?`). -/
  | readError (msg : String) : Err
  /-- the row checker rejected a batch (`check_batch` failure). -/
  | checkViolation : Err
deriving DecidableEq, Repr

/-- The spec's `ValidationError` class: a row violating the predicate, or a
scan/stream read failure. -/
def Err.isValidationError : Err → Bool
  | .readError _ => true
  | .checkViolation => true
  | _ => false

/-- The spec's `ConfigurationError` class: missing name or missing expression. -/
def Err.isConfigurationError : Err → Bool
  | .noName => true
  | .noExpr => true
  | _ => false

/-- The spec's `ConflictError` class (local duplicate constraint name). -/
def Err.isConflictError : Err → Bool
  | .alreadyExists _ _ => true
  | _ => false

/-- `operations::datafusion_utils::Expression`: a predicate given either as a
raw string or as an already-parsed DataFusion expression.  The parsed form is
external to this repository; it is represented by its rendered text, which is
all `into_future` uses of it (`e.to_string()`). -/
inductive Expression where
  | string (s : String) : Expression
  | dataFusion (rendered : String) : Expression
deriving DecidableEq, Repr

/-- The text `into_future` extracts from an expression: the string itself, or
the `to_string()` rendering of the DataFusion expression. -/
def Expression.render : Expression → String
  | .string s => s
  | .dataFusion r => r

/-- `kernel::Metadata`, restricted to the field the operation touches: the
`configuration` map from string keys to optional string values.  The `HashMap`
is embedded as an association list with unique keys; insertion order is
irrelevant to every claim. -/
structure Metadata where
  configuration : List (String × Option String)
deriving DecidableEq, Repr

/-- `HashMap::contains_key` on the association-list embedding. -/
def containsKey (cfg : List (String × Option String)) (k : String) : Bool :=
  cfg.any (fun p => p.1 == k)

/-- `HashMap::insert` on the association-list embedding: replace the value if
the key is present, otherwise add the binding. -/
def insertKey (cfg : List (String × Option String)) (k : String) (v : Option String) :
    List (String × Option String) :=
  if containsKey cfg k then cfg.map (fun p => if p.1 == k then (k, v) else p)
  else cfg ++ [(k, v)]

/-- `HashMap::get` on the association-list embedding. -/
def lookupKey (cfg : List (String × Option String)) (k : String) :
    Option (Option String) :=
  (cfg.find? (fun p => p.1 == k)).map Prod.snd

/-- `kernel::Protocol`: minimum reader/writer versions (i32 in Rust, embedded
as Int; the operation only compares and copies them) and the optional feature
sets, whose elements are opaque here (rendered as strings). -/
structure Protocol where
  min_reader_version : Int
  min_writer_version : Int
  reader_features : Option (List String)
  writer_features : Option (List String)
deriving DecidableEq, Repr

/-- `IsolationLevel` from `kernel` (only `Serializable` is used here). -/
inductive IsolationLevel where
  | serializable : IsolationLevel
  | writeSerializable : IsolationLevel
  | snapshotIsolation : IsolationLevel
deriving DecidableEq, Repr

/-- `kernel::CommitInfo`, restricted to the fields `into_future` sets; the
fields left at `..Default::default()` are omitted.  `operation_parameters`
holds JSON values in Rust; both values written here are JSON strings, so they
are embedded as strings. -/
structure CommitInfo where
  timestamp : Option Int
  operation : Option String
  operation_parameters : Option (List (String × String))
  read_version : Option Int
  isolation_level : Option IsolationLevel
  is_blind_append : Option Bool
deriving DecidableEq, Repr

/-- `kernel::Action`, restricted to the variants this operation emits. -/
inductive Action where
  | commitInfo (ci : CommitInfo) : Action
  | metadata (m : Metadata) : Action
  | protocol (p : Protocol) : Action
deriving DecidableEq, Repr

instance {ε β : Type} [DecidableEq ε] [DecidableEq β] : DecidableEq (Except ε β) :=
  fun a b =>
  match a, b with
  | .ok x, .ok y => decidable_of_iff (x = y) (by simp)
  | .ok _, .error _ => isFalse (by simp)
  | .error _, .ok _ => isFalse (by simp)
  | .error x, .error y => decidable_of_iff (x = y) (by simp)

/-- One item of a partition's record-batch stream: either a read failure
(carrying its message) or a batch of rows. -/
abbrev StreamItem (α : Type) := Except String (List α)

/-- `table::state::DeltaTableState` (the snapshot), restricted to what the
operation reads: the version, the optional metadata, the protocol, and the
live data.  The data is embedded as the partitioned batch streams the scan
plan would produce: one list of stream items per output partition. -/
structure DeltaTableState (α : Type) where
  version : Int
  metadata : Option Metadata
  protocol : Protocol
  partitions : List (List (StreamItem α))
deriving DecidableEq, Repr

/-- `table::Constraint`: a named predicate over a target. -/
structure Constraint where
  name : String
  expr : String
deriving DecidableEq, Repr

/-- `DeltaDataChecker`, holding the constraints to check. -/
structure DeltaDataChecker where
  constraints : List Constraint
deriving DecidableEq, Repr

/-- Modelled from the spec: the external row checker (`check_batch`) evaluates
every constraint's predicate expression against every row of the batch and
fails if any row violates any constraint.  `evalPred` is the external
DataFusion evaluation of a predicate expression text on one row. -/
def DeltaDataChecker.check_batch {α : Type} (evalPred : String → α → Bool)
    (c : DeltaDataChecker) (batch : List α) : Except Err Unit :=
  if c.constraints.all (fun con => batch.all (evalPred con.expr)) then .ok ()
  else .error .checkViolation

/-- One validator partition task (the `tokio::task::spawn`ed loop): pull the
stream items in order; a read failure or a rejected batch terminates the task
with that error; an exhausted stream yields success. -/
def runTask {α : Type} (evalPred : String → α → Bool) (checker : DeltaDataChecker) :
    List (StreamItem α) → Except Err Unit
  | [] => .ok ()
  | .error msg :: _ => .error (.readError msg)
  | .ok batch :: rest =>
    match checker.check_batch evalPred batch with
    | .error e => .error e
    | .ok _ => runTask evalPred checker rest

/-- The list of all partition task results, one per partition, in partition
order (`join_all` awaits every spawned task and returns all results). -/
def taskResults {α : Type} (evalPred : String → α → Bool) (checker : DeltaDataChecker)
    (parts : List (List (StreamItem α))) : List (Except Err Unit) :=
  parts.map (runTask evalPred checker)

/-- The aggregation `collect::<Result<Vec<_>, _>>()`: the first error in task
order, or success when every task succeeded. -/
def collectResults : List (Except Err Unit) → Except Err Unit
  | [] => .ok ()
  | .error e :: _ => .error e
  | .ok _ :: rest => collectResults rest

/-- Externally visible effects of one run, in order of occurrence.  They stand
for the I/O the pure embedding cannot perform: building the default DataFusion
session, building the scan plan, and handing an action list to the log store's
commit primitive. -/
inductive Event where
  | sessionBuilt : Event
  | scanBuilt : Event
  | committed (actions : List Action) : Event
deriving DecidableEq, Repr

/-- `ConstraintBuilder`: the operation configurator.  The log-store handle is
opaque to every claim and is omitted; the optional DataFusion `SessionState`
is opaque and embedded as `Option Unit` (only its presence matters: when it is
absent a default session is built). -/
structure ConstraintBuilder (α : Type) where
  snapshot : DeltaTableState α
  name : Option String
  expr : Option Expression
  state : Option Unit
deriving DecidableEq, Repr

/-- `ConstraintBuilder::new`. -/
def ConstraintBuilder.new {α : Type} (snapshot : DeltaTableState α) :
    ConstraintBuilder α :=
  { snapshot := snapshot, name := none, expr := none, state := none }

/-- `ConstraintBuilder::with_constraint`. -/
def ConstraintBuilder.with_constraint {α : Type} (b : ConstraintBuilder α)
    (column : String) (expression : Expression) : ConstraintBuilder α :=
  { b with name := some column, expr := some expression }

/--  `ConstraintBuilder::with_session_state`. -/
def ConstraintBuilder.with_session_state {α : Type} (b : ConstraintBuilder α)
    (s : Unit) : ConstraintBuilder α :=
  { b with state := some s }

/-- The `let state = this.state.unwrap_or_else(...)` step: when no session
state was supplied a default session is constructed (an effect); otherwise
nothing happens. -/
def sessionEvents : Option Unit → List Event
  | some _ => []
  | none => [Event.sessionBuilt]

/-- Modelled from the spec: `DeltaOperation::AddConstraint` lives outside this
source file; its `name()` is the fixed add-constraint operation identifier. -/
def addConstraintOperationName : String := "ADD CONSTRAINT"

/-- Modelled from the spec: the external log-store commit primitive durably
appends the actions and returns the new version; a successful commit increases
the table version by exactly 1.  Concurrent-writer conflicts are outside this
sequential model, so the modelled commit succeeds. -/
def commit {α : Type} (snapshot : DeltaTableState α) (_actions : List Action) : Int :=
  snapshot.version + 1

/-- First `Metadata` action in a list, if any. -/
def findMetadata : List Action → Option Metadata
  | [] => none
  | .metadata m :: _ => some m
  | _ :: rest => findMetadata rest

/-- First `Protocol` action in a list, if any. -/
def findProtocol : List Action → Option Protocol
  | [] => none
  | .protocol p :: _ => some p
  | _ :: rest => findProtocol rest

/-- Modelled from the spec: the external snapshot-merge routine
(`DeltaTableState::merge` with `from_actions`) folds the committed actions
into the base snapshot at the new version, replacing the metadata and the
protocol with the committed values. -/
def DeltaTableState.mergeActions {α : Type} (base : DeltaTableState α)
    (actions : List Action) (version : Int) : DeltaTableState α :=
  { base with
    version := version
    metadata := match findMetadata actions with
      | some m => some m
      | none => base.metadata
    protocol := (findProtocol actions).getD base.protocol }

/-- The metadata update of lines 143-145: insert
`configuration["delta.constraints.<name>"] = expr` into the cloned metadata. -/
def newMetadata (metadata0 : Metadata) (name expr : String) : Metadata :=
  { metadata0 with
    configuration := insertKey metadata0.configuration
      ("delta.constraints." ++ name) (some expr) }

/-- The protocol computed at lines 147-161: bump `min_reader_version` to at
least 1 and `min_writer_version` to at least 3, carrying the feature sets over
unchanged. -/
def newProtocol (old_protocol : Protocol) : Protocol :=
  { min_reader_version :=
      if old_protocol.min_reader_version > 1 then old_protocol.min_reader_version
      else 1
    min_writer_version :=
      if old_protocol.min_writer_version > 3 then old_protocol.min_writer_version
      else 3
    reader_features := old_protocol.reader_features
    writer_features := old_protocol.writer_features }

/-- The `CommitInfo` built at lines 173-181. -/
def mkCommitInfo (now read_version : Int) (name expr : String) : CommitInfo :=
  { timestamp := some now
    operation := some addConstraintOperationName
    operation_parameters := some [("name", name), ("expr", expr)]
    read_version := some read_version
    isolation_level := some .serializable
    is_blind_append := some false }

/-- The action list built at lines 183-187, in source order:
commit info first, then the new metadata, then the new protocol. -/
def mkActions (now read_version : Int) (name expr : String) (metadata0 : Metadata)
    (old_protocol : Protocol) : List Action :=
  [Action.commitInfo (mkCommitInfo now read_version name expr),
   Action.metadata (newMetadata metadata0 name expr),
   Action.protocol (newProtocol old_protocol)]

/-- `ConstraintBuilder::into_future`, stage by stage, with its effects traced.
`now` stands for `Utc::now().timestamp_millis()`; `evalPred` is the external
DataFusion evaluation of a predicate expression text on one row.  Returns the
event trace together with the result (`DeltaTable::new_with_state` wraps the
merged snapshot, embedded here as the merged snapshot itself). -/
def ConstraintBuilder.execute {α : Type} (now : Int)
    (evalPred : String → α → Bool) (this : ConstraintBuilder α) :
    List Event × Except Err (DeltaTableState α) :=
  match this.name with
  | none => ([], .error .noName)
  | some name =>
  match this.expr with
  | none => ([], .error .noExpr)
  | some e =>
  let expr := e.render
  match this.snapshot.metadata with
  | none => ([], .error .noMetadata)
  | some metadata0 =>
  let configuration_key := "delta.constraints." ++ name
  if containsKey metadata0.configuration configuration_key then
    ([], .error (.alreadyExists name expr))
  else
    let events0 := sessionEvents this.state ++ [Event.scanBuilt]
    let checker : DeltaDataChecker := ⟨[⟨"*", expr⟩]⟩
    match collectResults (taskResults evalPred checker this.snapshot.partitions) with
    | .error err => (events0, .error err)
    | .ok _ =>
      let actions := mkActions now this.snapshot.version name expr metadata0
        this.snapshot.protocol
      let version := commit this.snapshot actions
      (events0 ++ [Event.committed actions],
        .ok (this.snapshot.mergeActions actions version))

/-- A stream item whose rows all satisfy the predicate (an ok batch whose
every row passes). -/
def itemRowsOk {α : Type} (p : α → Bool) : StreamItem α → Bool
  | .ok batch => batch.all p
  | .error _ => false

/-- A stream item witnessing a violation: an ok batch holding at least one
row that fails the predicate. -/
def itemHasViolation {α : Type} (p : α → Bool) : StreamItem α → Bool
  | .ok batch => batch.any (fun r => !(p r))
  | .error _ => false

/-- A stream item a given checker accepts: an ok batch that passes
`check_batch`. -/
def itemAccepted {α : Type} (evalPred : String → α → Bool)
    (checker : DeltaDataChecker) : StreamItem α → Bool
  | .error _ => false
  | .ok batch =>
    match checker.check_batch evalPred batch with
    | .ok _ => true
    | .error _ => false

/-- Builders reachable through the public API: `new`, then any interleaving of
`with_constraint` and `with_session_state`. -/
inductive Reachable {α : Type} : ConstraintBuilder α → Prop where
  | new (s : DeltaTableState α) : Reachable (ConstraintBuilder.new s)
  | with_constraint {b : ConstraintBuilder α} (c : String) (e : Expression)
      (h : Reachable b) : Reachable (b.with_constraint c e)
  | with_session {b : ConstraintBuilder α} (u : Unit)
      (h : Reachable b) : Reachable (b.with_session_state u)

/-! Concrete fixtures, mirroring the shape of the tests in the source file:
an integer `value` column, predicates `value < 1000` and `value > 5`. -/

/-- A concrete external predicate evaluation for witnesses: interprets the two
expression texts the source tests use; any other text accepts every row. -/
def evalP : String → Int → Bool := fun e x =>
  if e == "value < 1000" then x < 1000
  else if e == "value > 5" then x > 5
  else true

/-- A snapshot at version 0 with one unrelated configuration entry and rows
1, 5, 7, 9 over two partitions. -/
def snap0 : DeltaTableState Int :=
  { version := 0
    metadata := some ⟨[("other", some "v")]⟩
    protocol := ⟨1, 2, none, none⟩
    partitions := [[.ok [1, 5, 7]], [.ok [9]]] }

/-- Builder adding constraint `id`: `value < 1000` to `snap0` (every row
satisfies it). -/
def cb1 : ConstraintBuilder Int :=
  (ConstraintBuilder.new snap0).with_constraint "id" (.string "value < 1000")

/-- The table `cb1.execute` produces. -/
def table1 : DeltaTableState Int :=
  { version := 1
    metadata := some ⟨[("other", some "v"),
      ("delta.constraints.id", some "value < 1000")]⟩
    protocol := ⟨1, 3, none, none⟩
    partitions := [[.ok [1, 5, 7]], [.ok [9]]] }

/-- Builder adding constraint `id`: `value > 5` to `snap0` (rows 1 and 5 fail
it). -/
def cb2 : ConstraintBuilder Int :=
  (ConstraintBuilder.new snap0).with_constraint "id" (.string "value > 5")

/-- A snapshot that already registers constraint `id` and whose rows include
`2`, which fails `value > 5`. -/
def snapDup : DeltaTableState Int :=
  { version := 1
    metadata := some ⟨[("delta.constraints.id", some "value < 60")]⟩
    protocol := ⟨1, 3, none, none⟩
    partitions := [[.ok [2, 100]]] }

/-- Builder re-adding constraint `id` (now as `value > 5`) to `snapDup`. -/
def cb3 : ConstraintBuilder Int :=
  (ConstraintBuilder.new snapDup).with_constraint "id" (.string "value > 5")

/-- A snapshot carrying no metadata. -/
def snapNoMeta : DeltaTableState Int :=
  { version := 4
    metadata := none
    protocol := ⟨1, 2, none, none⟩
    partitions := [[.ok [1]]] }

/-- Builder over the metadata-less snapshot. -/
def cbNoMeta : ConstraintBuilder Int :=
  (ConstraintBuilder.new snapNoMeta).with_constraint "id" (.string "value > 5")

/-- A freshly created builder with neither name nor expression. -/
def cbEmpty : ConstraintBuilder Int := ConstraintBuilder.new snap0

/-- The single-constraint checker for `value > 5`. -/
def checkerGT5 : DeltaDataChecker := ⟨[⟨"*", "value > 5"⟩]⟩

/-! Helper lemmas. -/

theorem lem_check_batch_star {α : Type} (p : String → α → Bool) (expr : String)
    (batch : List α) :
    DeltaDataChecker.check_batch p ⟨[⟨"*", expr⟩]⟩ batch = .ok () ↔
      batch.all (p expr) = true := by
  simp [DeltaDataChecker.check_batch]

theorem lem_runTask_ok_of_all {α : Type} (p : String → α → Bool) (expr : String)
    (items : List (StreamItem α))
    (h : ∀ it ∈ items, itemRowsOk (p expr) it = true) :
    runTask p ⟨[⟨"*", expr⟩]⟩ items = .ok () := by
  induction items with
  | nil => simp [runTask]
  | cons it rest ih =>
    cases it with
    | error msg =>
      have := h (.error msg) (by simp)
      simp [itemRowsOk] at this
    | ok batch =>
      have hb := h (.ok batch) (by simp)
      simp only [itemRowsOk] at hb
      have hc : DeltaDataChecker.check_batch p ⟨[⟨"*", expr⟩]⟩ batch = .ok () :=
        (lem_check_batch_star p expr batch).mpr hb
      simp only [runTask, hc]
      exact ih (fun it hit => h it (by simp [hit]))

theorem lem_runTask_shape {α : Type} (p : String → α → Bool)
    (checker : DeltaDataChecker) (items : List (StreamItem α)) :
    runTask p checker items = .ok () ∨
      ∃ e, runTask p checker items = .error e ∧ e.isValidationError = true := by
  induction items with
  | nil => left; simp [runTask]
  | cons it rest ih =>
    cases it with
    | error msg =>
      right
      exact ⟨.readError msg, by simp [runTask], by simp [Err.isValidationError]⟩
    | ok batch =>
      rcases hc : checker.check_batch p batch with e | u
      · right
        refine ⟨.checkViolation, ?_, by simp [Err.isValidationError]⟩
        have he : e = .checkViolation := by
          unfold DeltaDataChecker.check_batch at hc
          split at hc
          · simp at hc
          · simpa using hc.symm
        simp [runTask, hc, he]
      · simpa [runTask, hc] using ih

theorem lem_runTask_not_ok_of_violation {α : Type} (p : String → α → Bool)
    (expr : String) (items : List (StreamItem α))
    (h : ∃ it ∈ items, itemHasViolation (p expr) it = true) :
    runTask p ⟨[⟨"*", expr⟩]⟩ items ≠ .ok () := by
  induction items with
  | nil => simp at h
  | cons it rest ih =>
    cases it with
    | error msg => simp [runTask]
    | ok batch =>
      rcases hc : DeltaDataChecker.check_batch p ⟨[⟨"*", expr⟩]⟩ batch with e | u
      · simp [runTask, hc]
      · have hball : batch.all (p expr) = true :=
          (lem_check_batch_star p expr batch).mp (by rw [hc])
        rcases h with ⟨it, hmem, hviol⟩
        rcases List.mem_cons.mp hmem with rfl | hmem'
        · exfalso
          simp only [itemHasViolation] at hviol
          rcases List.any_eq_true.mp hviol with ⟨r, hr, hfail⟩
          have := List.all_eq_true.mp hball r hr
          simp [this] at hfail
        · simp only [runTask, hc]
          exact ih ⟨it, hmem', hviol⟩

theorem lem_collectResults_ok_iff (l : List (Except Err Unit)) :
    collectResults l = .ok () ↔ ∀ r ∈ l, r = .ok () := by
  induction l with
  | nil => simp [collectResults]
  | cons r rest ih =>
    cases r with
    | error e => simp [collectResults]
    | ok u => cases u; simpa [collectResults] using ih

theorem lem_collect_err_shape (l : List (Except Err Unit)) (err : Err)
    (hall : ∀ r ∈ l, r = .ok () ∨ ∃ e, r = .error e ∧ e.isValidationError = true)
    (h : collectResults l = .error err) : err.isValidationError = true := by
  induction l with
  | nil => simp [collectResults] at h
  | cons r rest ih =>
    rcases hall r (by simp) with hr | ⟨e, hr, hv⟩
    · subst hr
      simp only [collectResults] at h
      exact ih (fun r hr => hall r (by simp [hr])) h
    · subst hr
      simp only [collectResults, Except.error.injEq] at h
      subst h
      exact hv

theorem lem_lookup_insert_self (cfg : List (String × Option String)) (k : String)
    (v : Option String) (h : containsKey cfg k = false) :
    lookupKey (insertKey cfg k v) k = some v := by
  unfold insertKey
  rw [h]
  simp only [Bool.false_eq_true, if_false]
  unfold containsKey at h
  induction cfg with
  | nil => simp [lookupKey]
  | cons p rest ih =>
    simp only [List.any_cons, Bool.or_eq_false_iff] at h
    simp only [List.cons_append, lookupKey, List.find?_cons, h.1]
    exact ih h.2

theorem lem_execute_ok_inv {α : Type} (now : Int) (p : String → α → Bool)
    (b : ConstraintBuilder α) (t : DeltaTableState α)
    (h : (b.execute now p).2 = .ok t) :
    ∃ name e m,
      b.name = some name ∧ b.expr = some e ∧ b.snapshot.metadata = some m ∧
      containsKey m.configuration ("delta.constraints." ++ name) = false ∧
      collectResults (taskResults p ⟨[⟨"*", e.render⟩]⟩ b.snapshot.partitions) =
        .ok () ∧
      (b.execute now p).1 = sessionEvents b.state ++ [Event.scanBuilt,
        Event.committed (mkActions now b.snapshot.version name e.render m
          b.snapshot.protocol)] ∧
      t = b.snapshot.mergeActions
        (mkActions now b.snapshot.version name e.render m b.snapshot.protocol)
        (b.snapshot.version + 1) := by
  rcases hn : b.name with _ | name
  · simp [ConstraintBuilder.execute, hn] at h
  rcases he : b.expr with _ | e
  · simp [ConstraintBuilder.execute, hn, he] at h
  rcases hm : b.snapshot.metadata with _ | m
  · simp [ConstraintBuilder.execute, hn, he, hm] at h
  rcases hdup : containsKey m.configuration ("delta.constraints." ++ name) with _ | _
  · rcases hv : collectResults
        (taskResults p ⟨[⟨"*", e.render⟩]⟩ b.snapshot.partitions) with err | u
    · simp [ConstraintBuilder.execute, hn, he, hm, hdup, hv] at h
    · refine ⟨name, e, m, rfl, rfl, rfl, hdup, by rw [hv], ?_, ?_⟩
      · simp [ConstraintBuilder.execute, hn, he, hm, hdup, hv, commit]
      · have := h
        simp only [ConstraintBuilder.execute, hn, he, hm, hdup, hv] at this
        simp only [Bool.false_eq_true, if_false, commit] at this
        exact (Except.ok.inj this).symm
  · simp [ConstraintBuilder.execute, hn, he, hm, hdup] at h

theorem lem_execute_err_trace {α : Type} (now : Int) (p : String → α → Bool)
    (b : ConstraintBuilder α) (e : Err)
    (h : (b.execute now p).2 = .error e) :
    (b.execute now p).1 = [] ∨
      (b.execute now p).1 = sessionEvents b.state ++ [Event.scanBuilt] := by
  rcases hn : b.name with _ | name
  · left; simp [ConstraintBuilder.execute, hn]
  rcases he : b.expr with _ | ex
  · left; simp [ConstraintBuilder.execute, hn, he]
  rcases hm : b.snapshot.metadata with _ | m
  · left; simp [ConstraintBuilder.execute, hn, he, hm]
  rcases hdup : containsKey m.configuration ("delta.constraints." ++ name) with _ | _
  · rcases hv : collectResults
        (taskResults p ⟨[⟨"*", ex.render⟩]⟩ b.snapshot.partitions) with err | u
    · right; simp [ConstraintBuilder.execute, hn, he, hm, hdup, hv]
    · exfalso; simp [ConstraintBuilder.execute, hn, he, hm, hdup, hv] at h
  · left; simp [ConstraintBuilder.execute, hn, he, hm, hdup]

theorem lem_no_commit_of_err {α : Type} (now : Int) (p : String → α → Bool)
    (b : ConstraintBuilder α) (e : Err)
    (h : (b.execute now p).2 = .error e) :
    ∀ acts, Event.committed acts ∉ (b.execute now p).1 := by
  intro acts
  rcases lem_execute_err_trace now p b e h with ht | ht <;> rw [ht]
  · simp
  · cases hs : b.state <;> simp [sessionEvents, hs]

theorem lem_execute_no_noExpr {α : Type} (now : Int) (p : String → α → Bool)
    (b : ConstraintBuilder α) (name : String) (e : Expression)
    (hn : b.name = some name) (he : b.expr = some e) :
    (b.execute now p).2 ≠ .error .noExpr := by
  intro h
  rcases hm : b.snapshot.metadata with _ | m
  · simp [ConstraintBuilder.execute, hn, he, hm] at h
  rcases hdup : containsKey m.configuration ("delta.constraints." ++ name) with _ | _
  · rcases hv : collectResults
        (taskResults p ⟨[⟨"*", e.render⟩]⟩ b.snapshot.partitions) with err | u
    · have herr : err.isValidationError = true := by
        apply lem_collect_err_shape _ _ _ hv
        intro r hr
        rcases List.mem_map.mp hr with ⟨items, _, hrun⟩
        rcases lem_runTask_shape p _ items with hok | ⟨e', he', hv'⟩
        · left; rw [← hrun, hok]
        · right; exact ⟨e', by rw [← hrun, he'], hv'⟩
      simp only [ConstraintBuilder.execute, hn, he, hm, hdup, hv] at h
      simp only [Bool.false_eq_true, if_false, Except.error.injEq] at h
      subst h
      simp [Err.isValidationError] at herr
    · simp [ConstraintBuilder.execute, hn, he, hm, hdup, hv] at h
  · simp [ConstraintBuilder.execute, hn, he, hm, hdup] at h

theorem lem_runTask_stops_at_bad {α : Type} (p : String → α → Bool)
    (checker : DeltaDataChecker) (pre : List (StreamItem α)) (item : StreamItem α)
    (hpre : ∀ it ∈ pre, itemAccepted p checker it = true)
    (hbad : itemAccepted p checker item = false) :
    ∀ rest, runTask p checker (pre ++ item :: rest) = runTask p checker [item] := by
  induction pre with
  | nil =>
    intro rest
    cases item with
    | error msg => simp [runTask]
    | ok batch =>
      rcases hc : checker.check_batch p batch with e | u
      · simp [runTask, hc]
      · exfalso; simp [itemAccepted, hc] at hbad
  | cons g pre ih =>
    intro rest
    have hg := hpre g (by simp)
    cases g with
    | error msg => simp [itemAccepted] at hg
    | ok batch =>
      rcases hc : checker.check_batch p batch with e | u
      · simp [itemAccepted, hc] at hg
      · simp only [List.cons_append, runTask, hc]
        exact ih (fun it hit => hpre it (by simp [hit])) rest

theorem lem_taskResults_shape {α : Type} (p : String → α → Bool)
    (checker : DeltaDataChecker) (parts : List (List (StreamItem α))) :
    ∀ r ∈ taskResults p checker parts,
      r = .ok () ∨ ∃ e, r = .error e ∧ e.isValidationError = true := by
  intro r hr
  rcases List.mem_map.mp hr with ⟨items, _, hrun⟩
  rcases lem_runTask_shape p checker items with hok | ⟨e, he, hv⟩
  · left; rw [← hrun, hok]
  · right; exact ⟨e, by rw [← hrun, he], hv⟩

/-! Claim theorems. -/

/-- Claim C1, counterexample.  On `snap0` every row satisfies `value < 1000`
and no constraint is registered, so the claim's hypotheses hold; the operation
succeeds and bumps the version from 0 to 1, but the resulting configuration
has no entry keyed `constraint.id`: the code stores the constraint under the
key `delta.constraints.id`, not `constraint.<name>` as the claim states. -/
theorem C1_counterexample :
    (snap0.partitions.all fun pt => pt.all (itemRowsOk (evalP "value < 1000")))
      = true ∧
    containsKey (snap0.metadata.getD ⟨[]⟩).configuration "delta.constraints.id"
      = false ∧
    (cb1.execute 0 evalP).2 = .ok table1 ∧
    table1.version = snap0.version + 1 ∧
    lookupKey (table1.metadata.getD ⟨[]⟩).configuration "constraint.id" = none ∧
    lookupKey (table1.metadata.getD ⟨[]⟩).configuration "delta.constraints.id" =
      some (some "value < 1000") := by
  refine ⟨by decide, by decide, by decide, by decide, by decide, by decide⟩

/-- Claim C1 (amended: the configuration entry is keyed
`delta.constraints.<name>`, not `constraint.<name>`).  For every snapshot in
which all existing rows satisfy the predicate and no constraint with the given
name is registered, `add_constraint` succeeds, the resulting version is the
prior snapshot version plus one, and the resulting configuration maps
`delta.constraints.<name>` to the predicate's text. -/
theorem C1_add_constraint_success {α : Type} (now : Int) (p : String → α → Bool)
    (b : ConstraintBuilder α) (name : String) (e : Expression) (m : Metadata)
    (hn : b.name = some name) (he : b.expr = some e)
    (hm : b.snapshot.metadata = some m)
    (hdup : containsKey m.configuration ("delta.constraints." ++ name) = false)
    (hrows : (b.snapshot.partitions.all fun pt =>
      pt.all (itemRowsOk (p e.render))) = true) :
    ∃ t, (b.execute now p).2 = .ok t ∧
      t.version = b.snapshot.version + 1 ∧
      ∃ m', t.metadata = some m' ∧
        lookupKey m'.configuration ("delta.constraints." ++ name) =
          some (some e.render) := by
  have hcoll : collectResults
      (taskResults p ⟨[⟨"*", e.render⟩]⟩ b.snapshot.partitions) = .ok () := by
    rw [lem_collectResults_ok_iff]
    intro r hr
    rcases List.mem_map.mp hr with ⟨items, hitems, hrun⟩
    rw [← hrun]
    apply lem_runTask_ok_of_all
    intro it hit
    have h1 := List.all_eq_true.mp hrows items hitems
    exact List.all_eq_true.mp h1 it hit
  have hres : (b.execute now p).2 = .ok (b.snapshot.mergeActions
      (mkActions now b.snapshot.version name e.render m b.snapshot.protocol)
      (b.snapshot.version + 1)) := by
    simp [ConstraintBuilder.execute, hn, he, hm, hdup, hcoll, commit]
  refine ⟨_, hres, by simp [DeltaTableState.mergeActions], ?_⟩
  refine ⟨newMetadata m name e.render, ?_, ?_⟩
  · simp [DeltaTableState.mergeActions, mkActions, findMetadata]
  · simp only [newMetadata]
    exact lem_lookup_insert_self _ _ _ hdup

/-- Witness for C1: the amended theorem applied to `cb1` over `snap0`. -/
theorem C1_add_constraint_success_witness :
    ∃ t, (cb1.execute 0 evalP).2 = .ok t ∧
      t.version = cb1.snapshot.version + 1 ∧
      ∃ m', t.metadata = some m' ∧
        lookupKey m'.configuration ("delta.constraints." ++ "id") =
          some (some (Expression.render (.string "value < 1000"))) :=
  C1_add_constraint_success 0 evalP cb1 "id" (.string "value < 1000")
    ⟨[("other", some "v")]⟩ rfl rfl rfl (by decide) (by decide)

/-- Claim C2, counterexample.  `snapDup` holds the row 2, which fails
`value > 5`, so the claim's hypothesis holds; but because `snapDup` also
already registers a constraint named `id`, the operation fails with the
duplicate-name conflict error (the duplicate check precedes validation), not
with a validation error as the claim demands. -/
theorem C2_counterexample :
    (snapDup.partitions.any fun pt => pt.any (itemHasViolation (evalP "value > 5")))
      = true ∧
    (cb3.execute 0 evalP).2 = .error (.alreadyExists "id" "value > 5") ∧
    Err.isValidationError (.alreadyExists "id" "value > 5") = false := by
  refine ⟨by decide, by decide, by decide⟩

/-- Claim C2 (amended: additionally assuming name and expression are supplied,
the snapshot carries metadata, and no constraint with the given name is
already registered — otherwise the configuration, metadata, or duplicate-name
error precedes validation).  If at least one existing row fails the predicate,
the operation fails with a validation-class error and nothing is committed to
the log, leaving the table at its prior version. -/
theorem C2_soundness {α : Type} (now : Int) (p : String → α → Bool)
    (b : ConstraintBuilder α) (name : String) (e : Expression) (m : Metadata)
    (hn : b.name = some name) (he : b.expr = some e)
    (hm : b.snapshot.metadata = some m)
    (hdup : containsKey m.configuration ("delta.constraints." ++ name) = false)
    (hviol : (b.snapshot.partitions.any fun pt =>
      pt.any (itemHasViolation (p e.render))) = true) :
    ∃ err, (b.execute now p).2 = .error err ∧ err.isValidationError = true ∧
      ∀ acts, Event.committed acts ∉ (b.execute now p).1 := by
  rcases List.any_eq_true.mp hviol with ⟨pt, hpt, hptv⟩
  have hnotok : runTask p ⟨[⟨"*", e.render⟩]⟩ pt ≠ .ok () := by
    apply lem_runTask_not_ok_of_violation
    simpa using List.any_eq_true.mp hptv
  rcases hv : collectResults
      (taskResults p ⟨[⟨"*", e.render⟩]⟩ b.snapshot.partitions) with err | u
  · have hval : err.isValidationError = true :=
      lem_collect_err_shape _ _ (lem_taskResults_shape p _ b.snapshot.partitions) hv
    have hres : (b.execute now p).2 = .error err := by
      simp [ConstraintBuilder.execute, hn, he, hm, hdup, hv]
    exact ⟨err, hres, hval, lem_no_commit_of_err now p b err hres⟩
  · exfalso
    have hall := (lem_collectResults_ok_iff _).mp (by rw [hv])
    exact hnotok (hall _ (List.mem_map.mpr ⟨pt, hpt, rfl⟩))

/-- Witness for C2: the amended theorem applied to `cb2` over `snap0` (rows 1
and 5 fail `value > 5`). -/
theorem C2_soundness_witness :
    ∃ err, (cb2.execute 0 evalP).2 = .error err ∧ err.isValidationError = true ∧
      ∀ acts, Event.committed acts ∉ (cb2.execute 0 evalP).1 :=
  C2_soundness 0 evalP cb2 "id" (.string "value > 5")
    ⟨[("other", some "v")]⟩ rfl rfl rfl (by decide) (by decide)

/-- Claim C3: for every snapshot whose configuration already holds an entry
for the constraint name, `add_constraint` fails with the duplicate-name
conflict error for every expression, and nothing is committed (the version is
unchanged); the whole run produces no effect at all (empty trace). -/
theorem C3_duplicate_name {α : Type} (now : Int) (p : String → α → Bool)
    (b : ConstraintBuilder α) (name : String) (e : Expression) (m : Metadata)
    (hn : b.name = some name) (he : b.expr = some e)
    (hm : b.snapshot.metadata = some m)
    (hdup : containsKey m.configuration ("delta.constraints." ++ name) = true) :
    b.execute now p = ([], .error (.alreadyExists name e.render)) ∧
    Err.isConflictError (.alreadyExists name e.render) = true ∧
    ∀ acts, Event.committed acts ∉ (b.execute now p).1 := by
  have hres : b.execute now p = ([], .error (.alreadyExists name e.render)) := by
    simp [ConstraintBuilder.execute, hn, he, hm, hdup]
  refine ⟨hres, by simp [Err.isConflictError], fun acts => ?_⟩
  rw [hres]
  simp

/-- Witness for C3: the theorem applied to `cb3` over `snapDup`. -/
theorem C3_duplicate_name_witness :
    cb3.execute 0 evalP =
      ([], .error (.alreadyExists "id" (Expression.render (.string "value > 5")))) ∧
    Err.isConflictError (.alreadyExists "id" (Expression.render (.string "value > 5")))
      = true ∧
    ∀ acts, Event.committed acts ∉ (cb3.execute 0 evalP).1 :=
  C3_duplicate_name 0 evalP cb3 "id" (.string "value > 5")
    ⟨[("delta.constraints.id", some "value < 60")]⟩ rfl rfl rfl (by decide)

/-- Claim C4: on every successful run the new protocol's minimum reader and
writer versions are `max(old, 1)` and `max(old, 3)` respectively, the feature
sets are carried over unchanged, and the versions never decrease. -/
theorem C4_protocol_bump {α : Type} (now : Int) (p : String → α → Bool)
    (b : ConstraintBuilder α) (t : DeltaTableState α)
    (h : (b.execute now p).2 = .ok t) :
    t.protocol.min_reader_version = max b.snapshot.protocol.min_reader_version 1 ∧
    t.protocol.min_writer_version = max b.snapshot.protocol.min_writer_version 3 ∧
    t.protocol.reader_features = b.snapshot.protocol.reader_features ∧
    t.protocol.writer_features = b.snapshot.protocol.writer_features ∧
    b.snapshot.protocol.min_reader_version ≤ t.protocol.min_reader_version ∧
    b.snapshot.protocol.min_writer_version ≤ t.protocol.min_writer_version := by
  rcases lem_execute_ok_inv now p b t h with ⟨name, e, m, _, _, _, _, _, _, ht⟩
  have hp : t.protocol = newProtocol b.snapshot.protocol := by
    rw [ht]
    simp [DeltaTableState.mergeActions, mkActions, findProtocol]
  have hr : (newProtocol b.snapshot.protocol).min_reader_version =
      max b.snapshot.protocol.min_reader_version 1 := by
    simp only [newProtocol]
    by_cases h1 : b.snapshot.protocol.min_reader_version > 1
    · rw [if_pos h1]; exact (max_eq_left (by omega)).symm
    · rw [if_neg h1]; exact (max_eq_right (by omega)).symm
  have hw : (newProtocol b.snapshot.protocol).min_writer_version =
      max b.snapshot.protocol.min_writer_version 3 := by
    simp only [newProtocol]
    by_cases h3 : b.snapshot.protocol.min_writer_version > 3
    · rw [if_pos h3]; exact (max_eq_left (by omega)).symm
    · rw [if_neg h3]; exact (max_eq_right (by omega)).symm
  refine ⟨by rw [hp, hr], by rw [hp, hw], by rw [hp]; rfl, by rw [hp]; rfl,
    by rw [hp, hr]; exact le_max_left _ _, by rw [hp, hw]; exact le_max_left _ _⟩

/-- Witness for C4: the theorem applied to `cb1`, whose run produces
`table1`. -/
theorem C4_protocol_bump_witness :
    table1.protocol.min_reader_version =
      max cb1.snapshot.protocol.min_reader_version 1 ∧
    table1.protocol.min_writer_version =
      max cb1.snapshot.protocol.min_writer_version 3 ∧
    table1.protocol.reader_features = cb1.snapshot.protocol.reader_features ∧
    table1.protocol.writer_features = cb1.snapshot.protocol.writer_features ∧
    cb1.snapshot.protocol.min_reader_version ≤ table1.protocol.min_reader_version ∧
    cb1.snapshot.protocol.min_writer_version ≤ table1.protocol.min_writer_version :=
  C4_protocol_bump 0 evalP cb1 table1 (by decide)

/-- Claim C5: every run that reaches the commit stage hands the log store the
action list `[CommitInfo, Metadata, Protocol]` exactly in that order, and the
commit info carries the `{name, expr}` parameters, the read version of the
snapshot validation was based on, the Serializable isolation level, and
`is_blind_append = false`. -/
theorem C5_commit_payload {α : Type} (now : Int) (p : String → α → Bool)
    (b : ConstraintBuilder α) (name : String) (e : Expression)
    (t : DeltaTableState α)
    (hn : b.name = some name) (he : b.expr = some e)
    (h : (b.execute now p).2 = .ok t) :
    ∃ ci md pr,
      Event.committed [Action.commitInfo ci, Action.metadata md, Action.protocol pr]
        ∈ (b.execute now p).1 ∧
      ci.operation_parameters = some [("name", name), ("expr", e.render)] ∧
      ci.read_version = some b.snapshot.version ∧
      ci.isolation_level = some .serializable ∧
      ci.is_blind_append = some false := by
  rcases lem_execute_ok_inv now p b t h with ⟨name', e', m, hn', he', _, _, _, htr, _⟩
  obtain rfl : name = name' := Option.some.inj (hn.symm.trans hn')
  obtain rfl : e = e' := Option.some.inj (he.symm.trans he')
  refine ⟨mkCommitInfo now b.snapshot.version name e.render,
    newMetadata m name e.render, newProtocol b.snapshot.protocol,
    ?_, rfl, rfl, rfl, rfl⟩
  rw [htr]
  simp [mkActions]

/-- Witness for C5: the theorem applied to `cb1`, whose run produces
`table1`. -/
theorem C5_commit_payload_witness :
    ∃ ci md pr,
      Event.committed [Action.commitInfo ci, Action.metadata md, Action.protocol pr]
        ∈ (cb1.execute 0 evalP).1 ∧
      ci.operation_parameters =
        some [("name", "id"), ("expr", Expression.render (.string "value < 1000"))] ∧
      ci.read_version = some cb1.snapshot.version ∧
      ci.isolation_level = some .serializable ∧
      ci.is_blind_append = some false :=
  C5_commit_payload 0 evalP cb1 "id" (.string "value < 1000") table1 rfl rfl (by decide)

/-- Claim C6, counterexample.  `snapDup` already registers constraint `id` and
holds the row 2, which fails `value > 5`; re-adding `id` produces the
conflict error with a completely empty effect trace — no session, no scan, no
batch was ever touched — so the rows are not "still validated before the
ConflictError is produced" as the claim states: the duplicate-name check runs
before the validator, not after it. -/
theorem C6_counterexample :
    (snapDup.partitions.any fun pt => pt.any (itemHasViolation (evalP "value > 5")))
      = true ∧
    cb3.execute 0 evalP = ([], .error (.alreadyExists "id" "value > 5")) := by
  refine ⟨by decide, by decide⟩

/-- Claim C6 (amended: the duplicate-name uniqueness check runs after the
configurator but before the validator scan, so for a snapshot that already
contains the constraint name the ConflictError is produced without validating
any rows; on successful runs the scan precedes the commit).  Stage order as
implemented: Configurator → uniqueness check → Validator → rest of Planner →
Committer. -/
theorem C6_stage_order {α : Type} (now : Int) (p : String → α → Bool)
    (b : ConstraintBuilder α) (name : String) (e : Expression) (m : Metadata)
    (hn : b.name = some name) (he : b.expr = some e)
    (hm : b.snapshot.metadata = some m) :
    (containsKey m.configuration ("delta.constraints." ++ name) = true →
      b.execute now p = ([], .error (.alreadyExists name e.render))) ∧
    (∀ t, (b.execute now p).2 = .ok t →
      (b.execute now p).1 = sessionEvents b.state ++ [Event.scanBuilt,
        Event.committed (mkActions now b.snapshot.version name e.render m
          b.snapshot.protocol)]) := by
  constructor
  · intro hdup
    simp [ConstraintBuilder.execute, hn, he, hm, hdup]
  · intro t h
    rcases lem_execute_ok_inv now p b t h with ⟨name', e', m', hn', he', hm', _, _, htr, _⟩
    obtain rfl : name' = name := Option.some.inj (hn'.symm.trans hn)
    obtain rfl : e' = e := Option.some.inj (he'.symm.trans he)
    obtain rfl : m' = m := Option.some.inj (hm'.symm.trans hm)
    exact htr

/-- Witness for C6: the amended theorem applied to `cb3` over `snapDup`, where
the duplicate branch fires. -/
theorem C6_stage_order_witness :
    (containsKey (Metadata.mk [("delta.constraints.id", some "value < 60")]).configuration
        ("delta.constraints." ++ "id") = true →
      cb3.execute 0 evalP =
        ([], .error (.alreadyExists "id" (Expression.render (.string "value > 5"))))) ∧
    (∀ t, (cb3.execute 0 evalP).2 = .ok t →
      (cb3.execute 0 evalP).1 = sessionEvents cb3.state ++ [Event.scanBuilt,
        Event.committed (mkActions 0 cb3.snapshot.version "id"
          (Expression.render (.string "value > 5"))
          (Metadata.mk [("delta.constraints.id", some "value < 60")])
          cb3.snapshot.protocol)]) :=
  C6_stage_order 0 evalP cb3 "id" (.string "value > 5")
    (Metadata.mk [("delta.constraints.id", some "value < 60")]) rfl rfl rfl

/-- Claim C7: invoking execute with the constraint name absent, or with the
predicate expression absent, fails with a configuration-class error and an
empty effect trace — no session is constructed, no scan is built, and nothing
is committed. -/
theorem C7_missing_config {α : Type} (now : Int) (p : String → α → Bool)
    (b : ConstraintBuilder α) (h : b.name = none ∨ b.expr = none) :
    (b.execute now p).1 = [] ∧
    ∃ err, (b.execute now p).2 = .error err ∧ err.isConfigurationError = true := by
  rcases hn : b.name with _ | name
  · exact ⟨by simp [ConstraintBuilder.execute, hn],
      ⟨.noName, by simp [ConstraintBuilder.execute, hn],
        by simp [Err.isConfigurationError]⟩⟩
  · rcases he : b.expr with _ | e
    · exact ⟨by simp [ConstraintBuilder.execute, hn, he],
        ⟨.noExpr, by simp [ConstraintBuilder.execute, hn, he],
          by simp [Err.isConfigurationError]⟩⟩
    · exfalso
      rcases h with h | h
      · rw [hn] at h; exact Option.noConfusion h
      · rw [he] at h; exact Option.noConfusion h

/-- Witness for C7: the theorem applied to the freshly created builder. -/
theorem C7_missing_config_witness :
    (cbEmpty.execute 0 evalP).1 = [] ∧
    ∃ err, (cbEmpty.execute 0 evalP).2 = .error err ∧
      err.isConfigurationError = true :=
  C7_missing_config 0 evalP cbEmpty (Or.inl rfl)

/-- Claim C8: within one validator partition task the first stream item that
fails — a batch rejected by the checker or a failed read — determines the
task's error regardless of everything after it (later batches are never
evaluated), and the aggregation collects one result per spawned partition task
and succeeds exactly when every task succeeded. -/
theorem C8_failfast_and_join {α : Type} (p : String → α → Bool)
    (checker : DeltaDataChecker) (pre rest rest' : List (StreamItem α))
    (item : StreamItem α)
    (hpre : ∀ it ∈ pre, itemAccepted p checker it = true)
    (hbad : itemAccepted p checker item = false) :
    (runTask p checker (pre ++ item :: rest) =
        runTask p checker (pre ++ item :: rest') ∧
      ∃ e, runTask p checker (pre ++ item :: rest) = .error e) ∧
    ∀ parts : List (List (StreamItem α)),
      (taskResults p checker parts).length = parts.length ∧
      (collectResults (taskResults p checker parts) = .ok () ↔
        ∀ r ∈ taskResults p checker parts, r = .ok ()) := by
  refine ⟨⟨?_, ?_⟩, ?_⟩
  · rw [lem_runTask_stops_at_bad p checker pre item hpre hbad rest,
      lem_runTask_stops_at_bad p checker pre item hpre hbad rest']
  · rw [lem_runTask_stops_at_bad p checker pre item hpre hbad rest]
    cases item with
    | error msg => exact ⟨.readError msg, by simp [runTask]⟩
    | ok batch =>
      rcases hc : checker.check_batch p batch with e | u
      · exact ⟨e, by simp [runTask, hc]⟩
      · exfalso; simp [itemAccepted, hc] at hbad
  · intro parts
    exact ⟨by simp [taskResults], lem_collectResults_ok_iff _⟩

/-- Witness for C8: a partition whose second batch `[2]` fails `value > 5`
after a passing batch `[6]`; a trailing batch `[100]` does not change the
result. -/
theorem C8_failfast_and_join_witness :
    (runTask evalP checkerGT5 ([Except.ok [6]] ++ Except.ok [2] :: [Except.ok [100]]) =
        runTask evalP checkerGT5 ([Except.ok [6]] ++ Except.ok [2] :: []) ∧
      ∃ e, runTask evalP checkerGT5
        ([Except.ok [6]] ++ Except.ok [2] :: [Except.ok [100]]) = .error e) ∧
    ∀ parts : List (List (StreamItem Int)),
      (taskResults evalP checkerGT5 parts).length = parts.length ∧
      (collectResults (taskResults evalP checkerGT5 parts) = .ok () ↔
        ∀ r ∈ taskResults evalP checkerGT5 parts, r = .ok ()) :=
  C8_failfast_and_join evalP checkerGT5 [Except.ok [6]] [Except.ok [100]] []
    (Except.ok [2]) (by decide) (by decide)

/-- Claim C9: every builder reachable through the public API has its name and
expression either both set or both unset, so once the missing-name check
passes, the missing-expression branch can never fire. -/
theorem C9_name_expr_invariant {α : Type} (b : ConstraintBuilder α)
    (h : Reachable b) :
    (b.name.isSome ↔ b.expr.isSome) ∧
    ∀ (now : Int) (p : String → α → Bool), (b.execute now p).2 ≠ .error .noExpr := by
  have hinv : b.name.isSome ↔ b.expr.isSome := by
    induction h with
    | new s => simp [ConstraintBuilder.new]
    | with_constraint c e h ih => simp [ConstraintBuilder.with_constraint]
    | with_session u h ih => simpa [ConstraintBuilder.with_session_state] using ih
  refine ⟨hinv, fun now p hcontra => ?_⟩
  rcases hn : b.name with _ | name
  · simp [ConstraintBuilder.execute, hn] at hcontra
  · have hs : b.expr.isSome := hinv.mp (by rw [hn]; rfl)
    rcases he : b.expr with _ | e
    · rw [he] at hs; simp at hs
    · exact lem_execute_no_noExpr now p b name e hn he hcontra

/-- Witness for C9: the theorem applied to the reachable builder `cb1`. -/
theorem C9_name_expr_invariant_witness :
    (cb1.name.isSome ↔ cb1.expr.isSome) ∧
    ∀ (now : Int) (p : String → Int → Bool),
      (cb1.execute now p).2 ≠ .error .noExpr :=
  C9_name_expr_invariant cb1
    (Reachable.with_constraint "id" (.string "value < 1000") (Reachable.new snap0))

/-- Claim C10: for every snapshot that carries no metadata the operation fails
with the no-metadata error with an empty effect trace: no validation scan is
built and nothing is committed, leaving the table unchanged. -/
theorem C10_no_metadata {α : Type} (now : Int) (p : String → α → Bool)
    (b : ConstraintBuilder α) (name : String) (e : Expression)
    (hn : b.name = some name) (he : b.expr = some e)
    (hm : b.snapshot.metadata = none) :
    b.execute now p = ([], .error .noMetadata) ∧
    Event.scanBuilt ∉ (b.execute now p).1 ∧
    ∀ acts, Event.committed acts ∉ (b.execute now p).1 := by
  have hres : b.execute now p = ([], .error .noMetadata) := by
    simp [ConstraintBuilder.execute, hn, he, hm]
  exact ⟨hres, by rw [hres]; simp, fun acts => by rw [hres]; simp⟩

/-- Witness for C10: the theorem applied to `cbNoMeta`. -/
theorem C10_no_metadata_witness :
    cbNoMeta.execute 0 evalP = ([], .error .noMetadata) ∧
    Event.scanBuilt ∉ (cbNoMeta.execute 0 evalP).1 ∧
    ∀ acts, Event.committed acts ∉ (cbNoMeta.execute 0 evalP).1 :=
  C10_no_metadata 0 evalP cbNoMeta "id" (.string "value > 5") rfl rfl rfl

end DeltaConstraints
